import Mathlib

/-!
Verification of the SMP (Simple Management Protocol) codec and transport
framing layer: a shallow embedding of the header codec (src/smp/header.py),
the message envelope (src/smp/message.py), and the transport packetizer
(src/smp/packet.py), with theorems settling the frozen claims about the
natural-language specification.

Bytes are modelled as natural numbers; byte strings as lists of naturals
(each below 256 where it matters).  Fallible operations return Option or
Except.  Machine-integer arithmetic is Nat or Int with explicit bounds.
-/

namespace Smp

/-! ## Header codec (src/smp/header.py)

The 8-byte header is packed with the struct format BBHHBB (big endian):
byte 0 holds the op (low 3 bits) and version (bits 3-4), byte 1 the flags,
bytes 2-3 the 16-bit length, bytes 4-5 the 16-bit group id, byte 6 the
sequence, byte 7 the command id.
-/

/-- The operation, packed in the low 3 bits of byte 0
(class OP in src/smp/header.py): READ=0, READ_RSP=1, WRITE=2, WRITE_RSP=3. -/
inductive OP where
  | READ
  | READ_RSP
  | WRITE
  | WRITE_RSP
deriving DecidableEq, Repr

/-- Numeric value of an OP member. -/
def OP.toNat : OP → Nat
  | .READ => 0
  | .READ_RSP => 1
  | .WRITE => 2
  | .WRITE_RSP => 3

/-- Conversion of an integer to an OP member; mirrors the Python enum call
OP(x), which raises ValueError for a non-member value. -/
def OP.ofNat? : Nat → Option OP
  | 0 => some .READ
  | 1 => some .READ_RSP
  | 2 => some .WRITE
  | 3 => some .WRITE_RSP
  | _ => none

/-- The SMP version enum exactly as declared in src/smp/header.py:
only the members V0=0 and V1=1 exist there.  Note that other modules of the
same package (src/smp/message.py line 43, the docstrings of
src/smp/packet.py and src/smp/__init__.py) refer to a member named V2 with
value 1, which this enum does not define. -/
inductive Version where
  | V0
  | V1
deriving DecidableEq, Repr

/-- Numeric value of a Version member. -/
def Version.toNat : Version → Nat
  | .V0 => 0
  | .V1 => 1

/-- Conversion of an integer to a Version member; mirrors the Python enum
call Version(x), which raises ValueError for a non-member value. -/
def Version.ofNat? : Nat → Option Version
  | 0 => some .V0
  | 1 => some .V1
  | _ => none

/-- Values of the CommandId.OSManagement enum (ECHO=0 through
BOOTLOADER_INFO=8). -/
def osManagementCommandIds : List Nat := [0, 1, 2, 3, 4, 5, 6, 7, 8]

/-- Values of the CommandId.ImageManagement enum (STATE=0 through ERASE=5). -/
def imageManagementCommandIds : List Nat := [0, 1, 2, 3, 4, 5]

/-- Values of the CommandId.ShellManagement enum (EXECUTE=0). -/
def shellManagementCommandIds : List Nat := [0]

/-- Header._MAP_GROUP_ID_TO_COMMAND_ID_ENUM: the registry from a well-known
group id to its registered command id enum.  Only OS_MANAGEMENT=0,
IMAGE_MANAGEMENT=1 and SHELL_MANAGEMENT=9 are registered. -/
def mapGroupIdToCommandIdEnum (groupId : Nat) : Option (List Nat) :=
  if groupId = 0 then some osManagementCommandIds
  else if groupId = 1 then some imageManagementCommandIds
  else if groupId = 9 then some shellManagementCommandIds
  else none

/-- Header._validate_command_id: when the group id has a registered command
id enum the command id must be a member; otherwise anything is accepted.
Returns true when validation passes (the Python code raises ValueError
otherwise). -/
def validateCommandId (groupId commandId : Nat) : Bool :=
  match mapGroupIdToCommandIdEnum groupId with
  | some commandIds => commandIds.contains commandId
  | none => true

/-- The SMP header record (dataclass Header in src/smp/header.py).
Fields that are plain ints in the source are naturals here; their bit-width
bounds are enforced by the struct packing, modelled in Header.bytes?. -/
structure Header where
  op : OP
  version : Version
  flags : Nat
  length : Nat
  group_id : Nat
  sequence : Nat
  command_id : Nat
deriving DecidableEq, Repr

/-- Header._pack_op_and_version: the op in the low 3 bits, the version
shifted left by 3. -/
def packOpAndVersion (op : OP) (version : Version) : Nat :=
  op.toNat ||| (version.toNat <<< 3)

/-- The 8 bytes produced for a header by struct.pack, as computed in
Header.__post_init__.  Returns none when a field exceeds the bit width of
its struct format code (B: one byte, H: two bytes big endian), in which
case struct.pack raises. -/
def Header.bytes? (h : Header) : Option (List Nat) :=
  if h.flags < 256 ∧ h.length < 65536 ∧ h.group_id < 65536 ∧
      h.sequence < 256 ∧ h.command_id < 256 then
    some [packOpAndVersion h.op h.version, h.flags,
          h.length / 256, h.length % 256,
          h.group_id / 256, h.group_id % 256,
          h.sequence, h.command_id]
  else
    none

/-- Construction of a Header: the dataclass runs __post_init__, which
validates the command id against the group registry and packs the bytes
(struct.pack validates the field ranges).  Returns none when construction
raises. -/
def Header.make (op : OP) (version : Version) (flags length groupId sequence
    commandId : Nat) : Option Header :=
  let h : Header := ⟨op, version, flags, length, groupId, sequence, commandId⟩
  if validateCommandId groupId commandId ∧ (Header.bytes? h).isSome then
    some h
  else
    none

/-- Header.loads: deserialize 8 bytes to a Header.  Fails (none) when the
input is not exactly 8 bytes, when the command id is invalid for a
registered group, or when the op or version bits are not enum members. -/
def Header.loads (bs : List Nat) : Option Header :=
  match bs with
  | [b0, flags, l1, l2, g1, g2, sequence, commandId] =>
    let length := l1 * 256 + l2
    let groupId := g1 * 256 + g2
    if validateCommandId groupId commandId then
      match OP.ofNat? (b0 &&& 7), Version.ofNat? ((b0 >>> 3) &&& 3) with
      | some op, some version =>
        Header.make op version flags length groupId sequence commandId
      | _, _ => none
    else
      none
  | _ => none

/-- A header all of whose fields are in range and whose command id is valid
for its group id: exactly the headers whose construction succeeds. -/
def Header.Valid (h : Header) : Prop :=
  h.flags < 256 ∧ h.length < 65536 ∧ h.group_id < 65536 ∧
    h.sequence < 256 ∧ h.command_id < 256 ∧
    validateCommandId h.group_id h.command_id = true

instance (h : Header) : Decidable h.Valid := by
  unfold Header.Valid
  infer_instance

/-! ## The process-wide sequence counter (src/smp/message.py)

The module-level counter is itertools.count(): its n-th read returns n.
When a message is constructed without an explicit sequence number,
model_post_init assigns the sequence from the expression
next(_counter) % 0xFF (line 98) - note 0xFF is 255, not 256.
-/

/-- The sequence assigned by the n-th auto-assignment, from
src/smp/message.py line 98: the n-th read of the itertools counter is n,
and the code reduces it modulo 0xFF (that is, 255). -/
def autoSequence (n : Nat) : Nat := n % 0xFF

/-! ## Base64 (the base64.b64encode and b64decode used by src/smp/packet.py)

The standard alphabet.  Encoding groups the input bytes in threes and emits
four alphabet characters per group, padding the final partial group with
the character 61 (the equals sign).  The decoder here is modelled on inputs
made of alphabet characters with padding only at the end, which is the only
shape the packetizer ever feeds it; on other inputs it returns none.
-/

/-- The base64 alphabet character (as a byte) for a six-bit value. -/
def sextetToChar (n : Nat) : Nat :=
  if n < 26 then 65 + n
  else if n < 52 then 97 + (n - 26)
  else if n < 62 then 48 + (n - 52)
  else if n = 62 then 43
  else 47

/-- The six-bit value of a base64 alphabet character; none when the byte is
not in the alphabet (the padding character included). -/
def charToSextet (c : Nat) : Option Nat :=
  if 65 ≤ c ∧ c ≤ 90 then some (c - 65)
  else if 97 ≤ c ∧ c ≤ 122 then some (26 + (c - 97))
  else if 48 ≤ c ∧ c ≤ 57 then some (52 + (c - 48))
  else if c = 43 then some 62
  else if c = 47 then some 63
  else none

/-- base64.b64encode over a byte list. -/
def b64encode : List Nat → List Nat
  | a :: b :: c :: rest =>
    sextetToChar (a / 4) :: sextetToChar (a % 4 * 16 + b / 16) ::
      sextetToChar (b % 16 * 4 + c / 64) :: sextetToChar (c % 64) :: b64encode rest
  | [a, b] =>
    [sextetToChar (a / 4), sextetToChar (a % 4 * 16 + b / 16),
     sextetToChar (b % 16 * 4), 61]
  | [a] => [sextetToChar (a / 4), sextetToChar (a % 4 * 16), 61, 61]
  | [] => []

/-- base64.b64decode over a byte list whose characters are drawn from the
alphabet, in groups of four, with padding (61) allowed only in the final
group. -/
def b64decode : List Nat → Option (List Nat)
  | [] => some []
  | c1 :: c2 :: c3 :: c4 :: rest =>
    match charToSextet c1, charToSextet c2 with
    | some s1, some s2 =>
      if c3 = 61 then
        if c4 = 61 ∧ rest = [] then some [s1 * 4 + s2 / 16] else none
      else
        match charToSextet c3 with
        | some s3 =>
          if c4 = 61 then
            if rest = [] then some [s1 * 4 + s2 / 16, s2 % 16 * 16 + s3 / 4]
            else none
          else
            match charToSextet c4 with
            | some s4 =>
              (b64decode rest).map
                (fun tail => (s1 * 4 + s2 / 16) :: (s2 % 16 * 16 + s3 / 4) ::
                  (s3 % 4 * 64 + s4) :: tail)
            | none => none
        | none => none
    | _, _ => none
  | _ => none

/-! ## CRC-16/XMODEM (crcmod.predefined mkPredefinedCrcFun xmodem)

Polynomial 0x1021, initial value 0, no reflection, no final xor.
-/

/-- One shift step of the CRC-16/XMODEM computation. -/
def crc16Bit (crc : Nat) : Nat :=
  if crc &&& 0x8000 ≠ 0 then ((crc <<< 1) ^^^ 0x1021) &&& 0xFFFF
  else (crc <<< 1) &&& 0xFFFF

/-- Fold one byte into the CRC-16/XMODEM state. -/
def crc16Byte (crc b : Nat) : Nat :=
  crc16Bit (crc16Bit (crc16Bit (crc16Bit
    (crc16Bit (crc16Bit (crc16Bit (crc16Bit (crc ^^^ (b <<< 8)))))))))

/-- crc16_func: the CRC-16/XMODEM of a byte list. -/
def crc16 (bs : List Nat) : Nat := bs.foldl crc16Byte 0

/-! ## Transport packetizer (src/smp/packet.py) -/

/-- START_DELIMITER (SIXTY_NINE): struct.pack BB of 6 and 9. -/
def startDelimiter : List Nat := [6, 9]

/-- CONTINUE_DELIMITER (FOUR_TWENTY): struct.pack BB of 4 and 20. -/
def continueDelimiter : List Nat := [4, 20]

/-- struct.pack of a 16-bit big-endian unsigned value (the format used by
FRAME_LENGTH_STRUCT and CRC16_STRUCT); struct.pack raises when the value
does not fit. -/
def pack16 (n : Nat) : Option (List Nat) :=
  if n < 65536 then some [n / 256, n % 256] else none

/-- Python slicing s[:k] for an int k that may be negative. -/
def pyTake (k : Int) (l : List Nat) : List Nat :=
  if 0 ≤ k then l.take k.toNat else l.take ((l.length : Int) + k).toNat

/-- Python slicing s[k:] for an int k that may be negative. -/
def pyDrop (k : Int) (l : List Nat) : List Nat :=
  if 0 ≤ k then l.drop k.toNat else l.drop ((l.length : Int) + k).toNat

/-- packet_size = ((line_length - LINE_LENGTH_SUBTRACTOR) // 4) * 4, with
Python floor division (Int.fdiv). -/
def packetSize (lineLength : Int) : Int := (lineLength - 4).fdiv 4 * 4

/-- The base64 encoding of the complete envelope built by encode (lines
80-88 of src/smp/packet.py): the packed frame length (len(request) + 2),
the request bytes, and the packed CRC-16.  none when a struct.pack
overflows. -/
def encodeEnvelopeB64 (request : List Nat) : Option (List Nat) := do
  let crc ← pack16 (crc16 request)
  let frameLength ← pack16 (request.length + 2)
  some (b64encode (frameLength ++ request ++ crc))

/-- The while loop of encode (lines 96-99): while bytes remain, emit a
continue-delimited packet carrying the next packet_size base64 bytes.  The
loop is modelled with fuel; none means the fuel was exhausted before the
loop finished, so the generator yields more packets than the fuel allows. -/
def encodeSteps (fuel : Nat) (remaining : List Nat) (ps : Int) :
    Option (List (List Nat)) :=
  if remaining.isEmpty then some []
  else
    match fuel with
    | 0 => none
    | fuel + 1 =>
      (encodeSteps fuel (pyDrop ps remaining) ps).map
        (fun rest => (continueDelimiter ++ pyTake ps remaining ++ [10]) :: rest)

/-- The encode generator: the start-delimited packet carrying the first
packet_size base64 bytes, then the continue-delimited packets.  some is the
finite list of all yielded packets; none when a struct.pack overflows or
the generator does not finish within the fuel. -/
def encode (fuel : Nat) (request : List Nat) (lineLength : Int) :
    Option (List (List Nat)) := do
  let b64 ← encodeEnvelopeB64 request
  let ps := packetSize lineLength
  let rest ← encodeSteps fuel (pyDrop ps b64) ps
  some ((startDelimiter ++ pyTake ps b64 ++ [10]) :: rest)

/-- The errors the decode generator can raise.  valueError stands for the
untyped failures (base64 or struct errors); incomplete means the generator
asked for another packet and the caller had none left to feed. -/
inductive DecodeError where
  | badStartDelimiter
  | badContinueDelimiter
  | badCRC
  | valueError
  | incomplete
deriving DecidableEq, Repr

/-- packet[DELIMITER_SIZE : -len(END_DELIMITER)]: strip the two delimiter
bytes and the trailing line feed. -/
def packetPayload (p : List Nat) : List Nat := (p.drop 2).dropLast

/-- Lines 180-187 of src/smp/packet.py: once the accumulated frame reaches
the declared length, split off the trailing two CRC bytes, recompute the
CRC-16 over the rest, and compare. -/
def decodeFinish (frame : List Nat) : Except DecodeError (List Nat) :=
  let completeFrame := frame.take (frame.length - 2)
  match frame.drop (frame.length - 2) with
  | [c1, c2] =>
    if c1 * 256 + c2 = crc16 completeFrame then .ok completeFrame
    else .error .badCRC
  | _ => .error .valueError

/-- The while loop of decode (lines 172-178): while the accumulated frame
is shorter than the declared length, consume the next packet, check the
continue delimiter, strip and base64-decode it, and append. -/
def decodeWhile (packets : List (List Nat)) (frame : List Nat)
    (frameLength : Nat) : Except DecodeError (List Nat) :=
  if frame.length < frameLength then
    match packets with
    | [] => .error .incomplete
    | p :: rest =>
      if p.take 2 = continueDelimiter then
        match b64decode (packetPayload p) with
        | some d => decodeWhile rest (frame ++ d) frameLength
        | none => .error .valueError
      else .error .badContinueDelimiter
  else decodeFinish frame

/-- The decode generator, fed the given packets in order: check the start
delimiter on the first packet, strip and base64-decode it, read the 16-bit
big-endian frame length, then run the accumulation loop on the remaining
packets. -/
def decodeRun (packets : List (List Nat)) : Except DecodeError (List Nat) :=
  match packets with
  | [] => .error .incomplete
  | p :: rest =>
    if p.take 2 = startDelimiter then
      match b64decode (packetPayload p) with
      | some (b1 :: b2 :: frame0) => decodeWhile rest frame0 (b1 * 256 + b2)
      | some _ => .error .valueError
      | none => .error .valueError
    else .error .badStartDelimiter

/-- Modelled from the spec (section 4.3, step 2, for the refinement stated
by claim C7): the envelope is a 2-byte big-endian length field equal to
len(frame_bytes) + 2, then the frame bytes, then the 2-byte big-endian
CRC-16/XMODEM of the frame bytes. -/
def c7Envelope (request : List Nat) : List Nat :=
  [(request.length + 2) / 256, (request.length + 2) % 256] ++ request ++
    [crc16 request / 256, crc16 request % 256]

/-- The successive chunks of 4 * mPred + 4 bytes of a byte list (the
base64 text is sliced on boundaries that are positive multiples of four
characters). -/
def chunksOf4 (mPred : Nat) (l : List Nat) : List (List Nat) :=
  if h : l = [] then []
  else l.take (4 * mPred + 4) :: chunksOf4 mPred (l.drop (4 * mPred + 4))
termination_by l.length
decreasing_by
  simp only [List.length_drop]
  cases l with
  | nil => exact absurd rfl h
  | cons x xs => simp; omega

/-! ## CBOR (the cbor2 fragment the message envelope uses)

The value universe covers the payload data the SMP messages of this
repository carry through cbor2: unsigned integers, byte strings, text
strings (given as their UTF-8 bytes), booleans, null, and string-keyed
maps.  Serialization follows cbor2 with canonical=True: minimal-length
argument encodings, and map entries sorted by their encoded key, shorter
keys first and lexicographically within a length.
-/

mutual

/-- A CBOR value. -/
inductive Cbor where
  | uint : Nat → Cbor
  | bytes : List Nat → Cbor
  | text : List Nat → Cbor
  | bool : Bool → Cbor
  | null : Cbor
  | map : CborMap → Cbor
deriving DecidableEq, Repr

/-- The entries of a string-keyed CBOR map, in order. -/
inductive CborMap where
  | nil : CborMap
  | cons : List Nat → Cbor → CborMap → CborMap
deriving DecidableEq, Repr

end

/-- The entries of a CBOR map as an association list. -/
def CborMap.toList : CborMap → List (List Nat × Cbor)
  | .nil => []
  | .cons k v rest => (k, v) :: rest.toList

/-- An association list as a CBOR map. -/
def CborMap.ofList : List (List Nat × Cbor) → CborMap
  | [] => .nil
  | (k, v) :: rest => .cons k v (CborMap.ofList rest)

/-- The number of entries of a CBOR map. -/
def CborMap.size : CborMap → Nat
  | .nil => 0
  | .cons _ _ rest => rest.size + 1

/-- The UTF-8 bytes of an ASCII string. -/
def asciiBytes (s : String) : List Nat := s.toList.map Char.toNat

/-- The CBOR head for a major type and argument, in the minimal-length
form used by canonical encoding. -/
def cborHead (major n : Nat) : List Nat :=
  if n < 24 then [major * 32 + n]
  else if n < 256 then [major * 32 + 24, n]
  else if n < 65536 then [major * 32 + 25, n / 256, n % 256]
  else if n < 4294967296 then
    [major * 32 + 26, n / 16777216 % 256, n / 65536 % 256, n / 256 % 256,
     n % 256]
  else
    [major * 32 + 27, n / 72057594037927936 % 256, n / 281474976710656 % 256,
     n / 1099511627776 % 256, n / 4294967296 % 256, n / 16777216 % 256,
     n / 65536 % 256, n / 256 % 256, n % 256]

/-- Strict lexicographic order on byte lists. -/
def bytesLexLt : List Nat → List Nat → Bool
  | [], [] => false
  | [], _ :: _ => true
  | _ :: _, [] => false
  | x :: xs, y :: ys => if x < y then true else if y < x then false
      else bytesLexLt xs ys

/-- The canonical key order of cbor2: encoded keys compare first by length,
then lexicographically. -/
def encKeyLt (k1 k2 : List Nat) : Bool :=
  if k1.length = k2.length then bytesLexLt k1 k2 else k1.length < k2.length

/-- Insertion into a list of (encoded key, encoded value) pairs already in
canonical key order. -/
def insertEncEntry (e : List Nat × List Nat) :
    List (List Nat × List Nat) → List (List Nat × List Nat)
  | [] => [e]
  | f :: rest =>
    if encKeyLt f.1 e.1 then f :: insertEncEntry e rest else e :: f :: rest

/-- Sort (encoded key, encoded value) pairs into canonical key order. -/
def sortEncEntries : List (List Nat × List Nat) → List (List Nat × List Nat)
  | [] => []
  | e :: rest => insertEncEntry e (sortEncEntries rest)

mutual

/-- cbor2.dumps with canonical=True: each map level encodes its entries,
sorts them by encoded key, and concatenates them after the map head. -/
def cborEncode : Cbor → List Nat
  | .uint n => cborHead 0 n
  | .bytes b => cborHead 2 b.length ++ b
  | .text t => cborHead 3 t.length ++ t
  | .bool b => if b then [245] else [244]
  | .null => [246]
  | .map m =>
    cborHead 5 m.size ++
      ((sortEncEntries (cborEncodeEntries m)).map (fun e => e.1 ++ e.2)).flatten

/-- The (encoded key, encoded value) pairs of a map's entries, in entry
order; the key encoding is that of a text value. -/
def cborEncodeEntries : CborMap → List (List Nat × List Nat)
  | .nil => []
  | .cons k v rest =>
    (cborHead 3 k.length ++ k, cborEncode v) :: cborEncodeEntries rest

end

/-- Decode a CBOR head: the major type, the argument, and the remaining
bytes.  Accepts the four multi-byte argument forms as cbor2 does. -/
def cborDecodeHead (bs : List Nat) : Option (Nat × Nat × List Nat) :=
  match bs with
  | [] => none
  | b :: rest =>
    let major := b / 32
    let ai := b % 32
    if ai < 24 then some (major, ai, rest)
    else if ai = 24 then
      match rest with
      | x :: r => some (major, x, r)
      | _ => none
    else if ai = 25 then
      match rest with
      | x :: y :: r => some (major, x * 256 + y, r)
      | _ => none
    else if ai = 26 then
      match rest with
      | x :: y :: z :: w :: r =>
        some (major, ((x * 256 + y) * 256 + z) * 256 + w, r)
      | _ => none
    else if ai = 27 then
      match rest with
      | x1 :: x2 :: x3 :: x4 :: x5 :: x6 :: x7 :: x8 :: r =>
        some (major,
          ((((((x1 * 256 + x2) * 256 + x3) * 256 + x4) * 256 + x5) * 256 +
            x6) * 256 + x7) * 256 + x8, r)
      | _ => none
    else none

mutual

/-- cbor2 decoding of one value of the modelled universe, with fuel; maps
must be string-keyed (a map with another key shape cannot be splatted as
keyword arguments by the message loader anyway). -/
def cborDecodeValue : Nat → List Nat → Option (Cbor × List Nat)
  | 0, _ => none
  | fuel + 1, bs =>
    match cborDecodeHead bs with
    | none => none
    | some (major, arg, rest) =>
      if major = 0 then some (.uint arg, rest)
      else if major = 2 then
        if arg ≤ rest.length then some (.bytes (rest.take arg), rest.drop arg)
        else none
      else if major = 3 then
        if arg ≤ rest.length then some (.text (rest.take arg), rest.drop arg)
        else none
      else if major = 5 then
        match cborDecodeEntries fuel arg rest with
        | some (m, r) => some (.map m, r)
        | none => none
      else if major = 7 then
        if arg = 20 then some (.bool false, rest)
        else if arg = 21 then some (.bool true, rest)
        else if arg = 22 then some (.null, rest)
        else none
      else none

/-- Decode the given number of string-keyed map entries, with fuel. -/
def cborDecodeEntries : Nat → Nat → List Nat → Option (CborMap × List Nat)
  | 0, _, _ => none
  | _ + 1, 0, bs => some (.nil, bs)
  | fuel + 1, count + 1, bs =>
    match cborDecodeValue fuel bs with
    | some (.text k, r1) =>
      match cborDecodeValue fuel r1 with
      | some (v, r2) =>
        match cborDecodeEntries fuel count r2 with
        | some (m, r3) => some (.cons k v m, r3)
        | none => none
      | none => none
    | _ => none

end

/-- cbor2.loads: decode one CBOR object from the front of the bytes,
ignoring any trailing bytes. -/
def cborLoads (bs : List Nat) : Option Cbor :=
  match cborDecodeValue (2 * bs.length + 2) bs with
  | some (v, _) => some v
  | none => none

/-! ## Message envelope (src/smp/message.py)

A message class is modelled by its static identity (op, group id, command
id) and its payload field schema: per field a name, whether it is required,
and the predicate that pydantic validation applies to a supplied value.
The keyword arguments of a construction are the explicitly set payload
fields, in order.
-/

/-- One payload field of a message class: its name, whether pydantic
treats it as required, and its value validator. -/
structure FieldSpec where
  name : List Nat
  required : Bool
  validate : Cbor → Bool

/-- The static identity and payload schema of a message class. -/
structure MessageSpec where
  op : OP
  groupId : Nat
  commandId : Nat
  fields : List FieldSpec

/-- The field of a schema with the given name. -/
def lookupField (fields : List FieldSpec) (k : List Nat) : Option FieldSpec :=
  fields.find? (fun f => f.name = k)

/-- The value supplied for a field name, when the field was explicitly
set. -/
def lookupKwarg (kwargs : List (List Nat × Cbor)) (k : List Nat) :
    Option Cbor :=
  (kwargs.find? (fun e => e.1 = k)).map (fun e => e.2)

/-- pydantic validation of the supplied payload fields against the schema
with extra="forbid": every supplied key names a schema field and its value
passes that field's validator, every required field is supplied, and no
key is supplied twice. -/
def validateKwargs (fields : List FieldSpec) (kwargs : List (List Nat × Cbor)) :
    Bool :=
  (kwargs.map (fun e => e.1)).Nodup &&
    kwargs.all (fun e =>
      match lookupField fields e.1 with
      | some f => f.validate e.2
      | none => false) &&
    fields.all (fun f => !f.required || (lookupKwarg kwargs f.name).isSome)

/-- model_dump(exclude_unset=True, exclude_none=True, exclude=the envelope
attributes), as called in model_post_init (lines 80-87): the explicitly
set payload fields, in model field order, with None values dropped. -/
def modelDump (fields : List FieldSpec) (kwargs : List (List Nat × Cbor)) :
    List (List Nat × Cbor) :=
  fields.filterMap (fun f =>
    match lookupKwarg kwargs f.name with
    | some v => if v = Cbor.null then none else some (f.name, v)
    | none => none)

/-- The canonical CBOR serialization of the message payload: cbor2.dumps of
the model dump with canonical=True. -/
def payloadBytes (fields : List FieldSpec) (kwargs : List (List Nat × Cbor)) :
    List Nat :=
  cborEncode (.map (CborMap.ofList (modelDump fields kwargs)))

/-- The typed failures of message construction and loading: pydantic
ValidationError and the other untyped construction-time errors collapse to
validationError; SMPMalformed and SMPMismatchedGroupId are the exceptions
of src/smp/exceptions.py raised in src/smp/message.py (SMPMalformed is
imported there; its class declaration is absent from the snapshot of
src/smp/exceptions.py). -/
inductive SmpError where
  | validationError
  | malformed
  | mismatchedGroupId
deriving DecidableEq, Repr

/-- The default of the version attribute (src/smp/message.py line 43).
The source spells it smpheader.Version.V2; the Version enum of
src/smp/header.py defines no member named V2, and the member of the
intended value 1 is named V1 there. -/
def defaultVersion : Version := Version.V1

/-- A constructed message: the envelope attributes set by
model_post_init together with the explicitly set payload fields. -/
structure Message where
  header : Header
  version : Version
  sequence : Nat
  smpData : List Nat
  kwargs : List (List Nat × Cbor)
deriving DecidableEq, Repr

/-- Construction of a message (pydantic validation followed by
model_post_init, src/smp/message.py lines 79-121).  The arguments mirror
the model fields a caller may supply: the payload keyword arguments, and
optionally a header, a version, a sequence and the raw smp_data bytes.
counter is the state of the process-wide sequence counter, read only when
no header and no sequence are supplied. -/
def mkMessage (spec : MessageSpec) (headerArg : Option Header)
    (kwargs : List (List Nat × Cbor)) (smpDataArg : Option (List Nat))
    (sequenceArg : Option Nat) (versionArg : Option Version)
    (counter : Nat) : Except SmpError Message :=
  if validateKwargs spec.fields kwargs then
    let dataBytes := payloadBytes spec.fields kwargs
    match headerArg with
    | none =>
      let version := versionArg.getD defaultVersion
      let sequence := sequenceArg.getD (autoSequence counter)
      match Header.make spec.op version 0 dataBytes.length spec.groupId
          sequence spec.commandId with
      | some h =>
        .ok ⟨h, version, sequence,
          smpDataArg.getD ((h.bytes?).getD [] ++ dataBytes), kwargs⟩
      | none => .error .validationError
    | some h =>
      if smpDataArg = none ∧ h.length ≠ dataBytes.length then
        .error .malformed
      else if sequenceArg ≠ none then .error .validationError
      else
        .ok ⟨h, h.version, h.sequence,
          smpDataArg.getD ((h.bytes?).getD [] ++ dataBytes), kwargs⟩
  else .error .validationError

/-- loads (src/smp/message.py lines 54-68): deserialize the first 8 bytes
as the header, cbor-decode the rest into keyword arguments, construct the
message with header and smp_data supplied, then check the group id against
the class identity. -/
def loads (spec : MessageSpec) (data : List Nat) : Except SmpError Message :=
  match Header.loads (data.take 8) with
  | none => .error .validationError
  | some h =>
    match cborLoads (data.drop 8) with
    | some (.map m) =>
      match mkMessage spec (some h) m.toList (some data) none none 0 with
      | .ok msg =>
        if msg.header.group_id ≠ spec.groupId then .error .mismatchedGroupId
        else .ok msg
      | .error e => .error e
    | _ => .error .validationError

/-- The value validator of a pydantic str field. -/
def isTextVal : Cbor → Bool
  | .text _ => true
  | _ => false

/-- The value validator of a pydantic int field (the payloads of this
repository carry unsigned values through it). -/
def isUintVal : Cbor → Bool
  | .uint _ => true
  | _ => false

/-- The value validator of a pydantic bool field. -/
def isBoolVal : Cbor → Bool
  | .bool _ => true
  | _ => false

/-- The value validator of a pydantic bytes field. -/
def isBytesVal : Cbor → Bool
  | .bytes _ => true
  | _ => false

/-- The value validator of an optional field of the given inner type: None
is accepted. -/
def isOptional (inner : Cbor → Bool) : Cbor → Bool
  | .null => true
  | v => inner v

/-- EchoWriteRequest (src/smp/os_management.py): op WRITE, group
OS_MANAGEMENT, command ECHO, one required str field d. -/
def echoWriteRequestSpec : MessageSpec :=
  ⟨.WRITE, 0, 0, [⟨asciiBytes "d", true, isTextVal⟩]⟩

/-- ImageUploadWriteResponse (src/smp/image_management.py): op WRITE_RSP,
group IMAGE_MANAGEMENT, command UPLOAD, optional fields off (int),
match (bool) and rc (int). -/
def imageUploadWriteResponseSpec : MessageSpec :=
  ⟨.WRITE_RSP, 1, 1,
   [⟨asciiBytes "off", false, isOptional isUintVal⟩,
    ⟨asciiBytes "match", false, isOptional isBoolVal⟩,
    ⟨asciiBytes "rc", false, isOptional isUintVal⟩]⟩

/-! ## Error responses (src/smp/error.py) -/

/-- The values of the MGMT_ERR enum: EOK=0 through UNSUPPORTED_TOO_NEW=13,
and EPERUSER=256. -/
def mgmtErrValues : List Nat := [0, 1, 2, 3, 4, 5, 6, 7, 8, 9, 10, 11, 12, 13, 256]

/-- The values of the GroupId enum: OS_MANAGEMENT=0 through
SHELL_MANAGEMENT=9, and ZEPHYR=63. -/
def groupIdValues : List Nat := [0, 1, 2, 3, 4, 5, 6, 7, 8, 9, 63]

/-- The payload schema of ErrorV1: a required rc that must be a MGMT_ERR
member, and an optional str rsn. -/
def errorV1Fields : List FieldSpec :=
  [⟨asciiBytes "rc", true, fun v =>
      match v with
      | .uint n => mgmtErrValues.contains n
      | _ => false⟩,
   ⟨asciiBytes "rsn", false, isOptional isTextVal⟩]

/-- The field schema of the nested Err model of ErrorV2: a required group
that must be a GroupId member, and a required rc validated by the
command-group specific enum the class is parametrized with. -/
def errFields (rcValid : Nat → Bool) : List FieldSpec :=
  [⟨asciiBytes "group", true, fun v =>
      match v with
      | .uint n => groupIdValues.contains n
      | _ => false⟩,
   ⟨asciiBytes "rc", true, fun v =>
      match v with
      | .uint n => rcValid n
      | _ => false⟩]

/-- The payload schema of ErrorV2: one required err field holding an Err
map (extra keys forbidden there as well). -/
def errorV2Fields (rcValid : Nat → Bool) : List FieldSpec :=
  [⟨asciiBytes "err", true, fun v =>
      match v with
      | .map m => validateKwargs (errFields rcValid) m.toList
      | _ => false⟩]

/-- pydantic validation of a payload map as ErrorV1. -/
def validateErrorV1 (m : List (List Nat × Cbor)) : Bool :=
  validateKwargs errorV1Fields m

/-- pydantic validation of a payload map as ErrorV2 parametrized with the
given rc enum membership predicate. -/
def validateErrorV2 (rcValid : Nat → Bool) (m : List (List Nat × Cbor)) :
    Bool :=
  validateKwargs (errorV2Fields rcValid) m

/-! ## Theorems -/

/-- Unpacking the op and version from the packed byte recovers them: the
op sits in the low 3 bits and the version in bits 3-4. -/
theorem unpack_op_and_version (op : OP) (v : Version) :
    OP.ofNat? (packOpAndVersion op v &&& 7) = some op ∧
      Version.ofNat? ((packOpAndVersion op v >>> 3) &&& 3) = some v := by
  cases op <;> cases v <;> decide

/-- Claim C3 (confirmed): for every valid header h (op a member, version a
member, flags below 2^8, length and group_id below 2^16, sequence and
command_id below 2^8, and command_id valid for group_id), encoding h to its
8 bytes succeeds and decoding those bytes yields a header equal to h field
for field. -/
theorem c3_header_roundtrip (h : Header) (hv : h.Valid) :
    ∃ bs, h.bytes? = some bs ∧ Header.loads bs = some h := by
  obtain ⟨op, ver, fl, len, gid, seq, cid⟩ := h
  obtain ⟨hf, hl, hg, hs, hc, hvc⟩ := hv
  simp only at hf hl hg hs hc hvc
  have hb : Header.bytes? ⟨op, ver, fl, len, gid, seq, cid⟩ =
      some [packOpAndVersion op ver, fl, len / 256, len % 256,
            gid / 256, gid % 256, seq, cid] := by
    unfold Header.bytes?
    rw [if_pos ⟨hf, hl, hg, hs, hc⟩]
  refine ⟨_, hb, ?_⟩
  have hlen : len / 256 * 256 + len % 256 = len := by omega
  have hgid : gid / 256 * 256 + gid % 256 = gid := by omega
  unfold Header.loads
  simp only [hlen, hgid, hvc, if_true]
  rw [(unpack_op_and_version op ver).1, (unpack_op_and_version op ver).2]
  dsimp only
  unfold Header.make
  dsimp only
  rw [if_pos ⟨hvc, by rw [hb]; rfl⟩]

/-- Witness for C3 at a concrete valid header. -/
theorem c3_header_roundtrip_witness :
    Header.Valid ⟨.WRITE_RSP, .V1, 0, 7, 0, 140, 0⟩ ∧
      ∃ bs, Header.bytes? ⟨.WRITE_RSP, .V1, 0, 7, 0, 140, 0⟩ = some bs ∧
        Header.loads bs = some ⟨.WRITE_RSP, .V1, 0, 7, 0, 140, 0⟩ :=
  ⟨by decide, c3_header_roundtrip ⟨.WRITE_RSP, .V1, 0, 7, 0, 140, 0⟩ (by decide)⟩

/-- Counterexample to claim C4 as stated: the 255-th auto-assigned
sequence is 0, not 255 mod 256 = 255, because src/smp/message.py line 98
reduces the counter modulo 0xFF = 255 rather than modulo 256. -/
theorem c4_counterexample : ¬ autoSequence 255 = 255 % 256 := by decide

/-- Claim C4 (corrected): the n-th auto-assigned sequence equals n mod 255
(the code reduces the counter modulo 0xFF = 255, not 256), so it is always
below 255, repeats with period 255, and every value 0..254 occurs within
any 255 consecutive auto-assignments; the value 255 is never assigned. -/
theorem c4_sequence_counter_amended (n v : Nat) (hv : v < 255) :
    autoSequence n = n % 255 ∧ autoSequence n < 255 ∧
      autoSequence (n + 255) = autoSequence n ∧
      ∃ k, k < 255 ∧ autoSequence (n + k) = v := by
  refine ⟨rfl, by unfold autoSequence; omega, by unfold autoSequence; omega, ?_⟩
  refine ⟨(255 + v - n % 255) % 255, by omega, ?_⟩
  unfold autoSequence
  have h1 : n % 255 < 255 := by omega
  omega

/-- Witness for C4 at concrete inputs. -/
theorem c4_sequence_counter_amended_witness :
    autoSequence 3 = 3 % 255 ∧ autoSequence 3 < 255 ∧
      autoSequence (3 + 255) = autoSequence 3 ∧
      ∃ k, k < 255 ∧ autoSequence (3 + k) = 7 :=
  c4_sequence_counter_amended 3 7 (by decide)

/-- Claim C5 (code bug): decoding the header bytes 0b 00 00 07 00 00 8c 00
succeeds with op=WRITE_RSP, flags=0, length=7, group_id=0, sequence=140,
command_id=0, and the version member of numeric value 1 - which the claim
and the rest of the package (src/smp/message.py line 43, the docstrings of
src/smp/packet.py and src/smp/__init__.py) name V2, but which the Version
enum of src/smp/header.py names V1, defining no V2 at all. -/
theorem c5_decode_concrete_bytes :
    Header.loads [0x0b, 0x00, 0x00, 0x07, 0x00, 0x00, 0x8c, 0x00] =
      some ⟨.WRITE_RSP, .V1, 0, 7, 0, 140, 0⟩ ∧ Version.toNat .V1 = 1 := by
  decide

/-- Claim C6 (confirmed): constructing or decoding a header with
group_id=1 (image management, which has a registered command enum) and a
command_id outside that enum fails, while constructing or decoding a
header with an unregistered user group_id (64 or above) accepts any
command_id in the 0..255 range. -/
theorem c6_group_command_validation (op : OP) (v : Version)
    (flags length sequence commandId groupId : Nat)
    (hf : flags < 256) (hl : length < 65536) (hs : sequence < 256)
    (hc : commandId < 256) :
    (imageManagementCommandIds.contains commandId = false →
      Header.make op v flags length 1 sequence commandId = none ∧
      ∀ b0 fl l1 l2 sq : Nat,
        Header.loads [b0, fl, l1, l2, 0, 1, sq, commandId] = none) ∧
    (64 ≤ groupId → groupId < 65536 →
      (Header.make op v flags length groupId sequence commandId).isSome = true ∧
      (Header.loads [packOpAndVersion op v, flags, length / 256, length % 256,
        groupId / 256, groupId % 256, sequence,
        commandId]).isSome = true) := by
  constructor
  · intro hbad
    have hval : validateCommandId 1 commandId = false := by
      unfold validateCommandId mapGroupIdToCommandIdEnum
      simpa using hbad
    constructor
    · unfold Header.make
      rw [if_neg]
      simp [hval]
    · intro b0 fl l1 l2 sq
      unfold Header.loads
      simp [hval]
  · intro hge hlt
    have hval : validateCommandId groupId commandId = true := by
      unfold validateCommandId mapGroupIdToCommandIdEnum
      have h0 : ¬ groupId = 0 := by omega
      have h1 : ¬ groupId = 1 := by omega
      have h9 : ¬ groupId = 9 := by omega
      simp [h0, h1, h9]
    have hmk : (Header.make op v flags length groupId sequence
        commandId).isSome = true := by
      unfold Header.make
      rw [if_pos]
      · rfl
      · refine ⟨hval, ?_⟩
        unfold Header.bytes?
        rw [if_pos ⟨hf, hl, hlt, hs, hc⟩]
        rfl
    refine ⟨hmk, ?_⟩
    have hgid : groupId / 256 * 256 + groupId % 256 = groupId := by omega
    have hlen2 : length / 256 * 256 + length % 256 = length := by omega
    unfold Header.loads
    simp only [hgid, hlen2, hval, if_true]
    rw [(unpack_op_and_version op v).1, (unpack_op_and_version op v).2]
    exact hmk

/-- Witness for C6 at concrete inputs: command_id 6 is outside the image
management enum, and user group 64 accepts it, on construction and on
decoding alike. -/
theorem c6_group_command_validation_witness :
    (imageManagementCommandIds.contains 6 = false →
      Header.make .WRITE .V0 0 0 1 0 6 = none ∧
      ∀ b0 fl l1 l2 sq : Nat,
        Header.loads [b0, fl, l1, l2, 0, 1, sq, 6] = none) ∧
    (64 ≤ 64 → 64 < 65536 →
      (Header.make .WRITE .V0 0 0 64 0 6).isSome = true ∧
      (Header.loads [packOpAndVersion .WRITE .V0, 0, 0 / 256, 0 % 256,
        64 / 256, 64 % 256, 0, 6]).isSome = true) :=
  c6_group_command_validation .WRITE .V0 0 0 0 6 64
    (by decide) (by decide) (by decide) (by decide)

/-- Claim C9 (confirmed): the payload map with rc equal to 0 validates as
ErrorV1 and fails as ErrorV2, while the payload map with err equal to the
map of group 1 and rc 0 validates as ErrorV2 and fails as ErrorV1, for
every rc enum the ErrorV2 class is parametrized with that contains the
value 0. -/
theorem c9_error_shape_exclusivity (rcValid : Nat → Bool)
    (h0 : rcValid 0 = true) :
    validateErrorV1 [(asciiBytes "rc", Cbor.uint 0)] = true ∧
    validateErrorV2 rcValid [(asciiBytes "rc", Cbor.uint 0)] = false ∧
    validateErrorV2 rcValid
      [(asciiBytes "err", Cbor.map (.cons (asciiBytes "group") (.uint 1)
        (.cons (asciiBytes "rc") (.uint 0) .nil)))] = true ∧
    validateErrorV1
      [(asciiBytes "err", Cbor.map (.cons (asciiBytes "group") (.uint 1)
        (.cons (asciiBytes "rc") (.uint 0) .nil)))] = false := by
  refine ⟨by decide, by rfl, ?_, by decide⟩
  have hrc : rcValid = fun n => if n = 0 then true else rcValid n := by
    funext n
    by_cases hn : n = 0
    · subst hn
      simp [h0]
    · simp [hn]
  rw [hrc]
  rfl

/-- Witness for C9 at a concrete rc enum membership predicate. -/
theorem c9_error_shape_exclusivity_witness :
    validateErrorV1 [(asciiBytes "rc", Cbor.uint 0)] = true ∧
    validateErrorV2 (fun n => n < 2) [(asciiBytes "rc", Cbor.uint 0)] = false ∧
    validateErrorV2 (fun n => n < 2)
      [(asciiBytes "err", Cbor.map (.cons (asciiBytes "group") (.uint 1)
        (.cons (asciiBytes "rc") (.uint 0) .nil)))] = true ∧
    validateErrorV1
      [(asciiBytes "err", Cbor.map (.cons (asciiBytes "group") (.uint 1)
        (.cons (asciiBytes "rc") (.uint 0) .nil)))] = false :=
  c9_error_shape_exclusivity (fun n => n < 2) (by decide)

/-- Claim C1 (code bug): Message.loads does not validate header.length
against the actual payload byte count.  On a frame for EchoWriteRequest
whose header declares length 99 but whose payload is the 6-byte map with d
equal to the text ok, loads returns a message (no SMPMalformed): the
length check of model_post_init (src/smp/message.py line 104) is guarded
by smp_data being None, and loads always supplies smp_data.  The
repository's own test (src/tests/test_injected_header.py) and the spec
expect SMPMalformed from loads on such a mismatch. -/
theorem c1_loads_skips_length_check :
    (loads echoWriteRequestSpec
        [2, 0, 0, 99, 0, 0, 0, 0, 0xa1, 0x61, 0x64, 0x62, 0x6f, 0x6b]).map
      (fun m => m.header.length) = .ok 99 ∧
    (([2, 0, 0, 99, 0, 0, 0, 0, 0xa1, 0x61, 0x64, 0x62, 0x6f,
       0x6b] : List Nat).drop 8).length = 6 := by
  constructor
  · rfl
  · rfl

/-- Looking a key up among the explicitly supplied payload fields. -/
theorem lookupKwarg_cons (k : List Nat) (e : List Nat × Cbor)
    (kwargs : List (List Nat × Cbor)) :
    lookupKwarg (e :: kwargs) k =
      if e.1 = k then some e.2 else lookupKwarg kwargs k := by
  unfold lookupKwarg
  by_cases h : e.1 = k
  · simp [List.find?_cons, h]
  · simp [List.find?_cons, h]

/-- A field never explicitly set does not appear in the model dump. -/
theorem lookupKwarg_modelDump_of_none (fields : List FieldSpec)
    (kwargs : List (List Nat × Cbor)) (k : List Nat)
    (h : lookupKwarg kwargs k = none) :
    lookupKwarg (modelDump fields kwargs) k = none := by
  induction fields with
  | nil => rfl
  | cons f rest ih =>
    unfold modelDump
    rw [List.filterMap_cons]
    by_cases hfk : f.name = k
    · rw [hfk, h]
      exact ih
    · cases hlk : lookupKwarg kwargs f.name with
      | none => exact ih
      | some v =>
        cases hnull : decide (v = Cbor.null) with
        | true =>
          simp only [of_decide_eq_true hnull, if_pos rfl]
          exact ih
        | false =>
          have : ¬ v = Cbor.null := of_decide_eq_false hnull
          dsimp only
          rw [if_neg this, lookupKwarg_cons]
          simp only [hfk, if_false]
          exact ih

/-- A field explicitly set to a non-None value keeps that value in the
model dump, provided some schema field carries its name. -/
theorem lookupKwarg_modelDump_of_some (fields : List FieldSpec)
    (kwargs : List (List Nat × Cbor)) (k : List Nat) (v : Cbor)
    (hfield : (lookupField fields k).isSome)
    (hv : lookupKwarg kwargs k = some v) (hnn : v ≠ Cbor.null) :
    lookupKwarg (modelDump fields kwargs) k = some v := by
  induction fields with
  | nil => simp [lookupField] at hfield
  | cons f rest ih =>
    unfold modelDump
    rw [List.filterMap_cons]
    by_cases hfk : f.name = k
    · rw [hfk, hv]
      dsimp only
      rw [if_neg hnn, lookupKwarg_cons]
      simp [hfk]
    · have hfield' : (lookupField rest k).isSome := by
        unfold lookupField at hfield ⊢
        rw [List.find?_cons] at hfield
        simpa [hfk] using hfield
      cases hlk : lookupKwarg kwargs f.name with
      | none => exact ih hfield'
      | some w =>
        cases hnull : decide (w = Cbor.null) with
        | true =>
          simp only [of_decide_eq_true hnull, if_pos rfl]
          exact ih hfield'
        | false =>
          have : ¬ w = Cbor.null := of_decide_eq_false hnull
          dsimp only
          rw [if_neg this, lookupKwarg_cons]
          simp only [hfk, if_false]
          exact ih hfield'

/-- An explicitly set field names a schema field whenever pydantic
validation of the supplied fields passed. -/
theorem lookupField_isSome_of_validated (fields : List FieldSpec)
    (kwargs : List (List Nat × Cbor)) (k : List Nat) (v : Cbor)
    (hval : validateKwargs fields kwargs = true)
    (hv : lookupKwarg kwargs k = some v) :
    (lookupField fields k).isSome := by
  unfold validateKwargs at hval
  have hall := (Bool.and_eq_true_iff.mp
    ((Bool.and_eq_true_iff.mp hval).1)).2
  unfold lookupKwarg at hv
  cases hfind : kwargs.find? (fun e => e.1 = k) with
  | none => rw [hfind] at hv; simp at hv
  | some e =>
    rw [hfind] at hv
    have hek : e.1 = k := by
      have := List.find?_some hfind
      simpa using this
    have hmem : e ∈ kwargs := List.mem_of_find?_eq_some hfind
    have := List.all_eq_true.mp hall e hmem
    cases hlf : lookupField fields e.1 with
    | none => rw [hlf] at this; simp at this
    | some f => rw [hek] at hlf; rw [hlf]; rfl

/-- A packed header byte string has exactly 8 bytes. -/
theorem Header.bytes_length (h : Header) (bs : List Nat)
    (hb : h.bytes? = some bs) : bs.length = 8 := by
  unfold Header.bytes? at hb
  by_cases hc : h.flags < 256 ∧ h.length < 65536 ∧ h.group_id < 65536 ∧
      h.sequence < 256 ∧ h.command_id < 256
  · rw [if_pos hc] at hb
    cases hb
    rfl
  · rw [if_neg hc] at hb
    cases hb

/-- A successfully constructed header packs to some byte string. -/
theorem Header.make_bytes_isSome (op : OP) (v : Version)
    (flags length groupId sequence commandId : Nat) (h : Header)
    (hmk : Header.make op v flags length groupId sequence commandId = some h) :
    (h.bytes?).isSome := by
  unfold Header.make at hmk
  by_cases hc : validateCommandId groupId commandId = true ∧
      (Header.bytes? ⟨op, v, flags, length, groupId, sequence, commandId⟩).isSome = true
  · rw [if_pos hc] at hmk
    cases hmk
    exact hc.2
  · rw [if_neg hc] at hmk
    cases hmk

/-- Claim C8 (confirmed): for a message constructed without a header, the
serialized payload (the smp_data bytes past the 8-byte header) is the
canonical CBOR encoding of exactly the explicitly set, non-None fields; a
field left unset never appears in that map, while a field explicitly set
to any non-None value - 0 and false included - keeps that value in it. -/
theorem c8_omission_invariant (spec : MessageSpec)
    (kwargs : List (List Nat × Cbor)) (counter : Nat) (msg : Message)
    (k : List Nat)
    (hok : mkMessage spec none kwargs none none none counter = .ok msg) :
    msg.smpData.drop 8 =
      cborEncode (.map (CborMap.ofList (modelDump spec.fields kwargs))) ∧
    (lookupKwarg kwargs k = none →
      lookupKwarg (modelDump spec.fields kwargs) k = none) ∧
    (∀ v : Cbor, v ≠ Cbor.null → lookupKwarg kwargs k = some v →
      lookupKwarg (modelDump spec.fields kwargs) k = some v) := by
  unfold mkMessage at hok
  by_cases hval : validateKwargs spec.fields kwargs = true
  · rw [if_pos hval] at hok
    simp only [Option.getD_none] at hok
    cases hmk : Header.make spec.op defaultVersion 0
        (payloadBytes spec.fields kwargs).length spec.groupId
        (autoSequence counter) spec.commandId with
    | none => rw [hmk] at hok; cases hok
    | some h =>
      rw [hmk] at hok
      dsimp only at hok
      cases hok
      refine ⟨?_, ?_, ?_⟩
      · obtain ⟨bs, hbs⟩ := Option.isSome_iff_exists.mp
          (Header.make_bytes_isSome _ _ _ _ _ _ _ _ hmk)
        dsimp only
        rw [hbs]
        show (bs ++ payloadBytes spec.fields kwargs).drop 8 = _
        rw [← Header.bytes_length h bs hbs, List.drop_left]
        rfl
      · exact lookupKwarg_modelDump_of_none spec.fields kwargs k
      · intro v hnn hv
        exact lookupKwarg_modelDump_of_some spec.fields kwargs k v
          (lookupField_isSome_of_validated spec.fields kwargs k v hval hv)
          hv hnn
  · rw [if_neg hval] at hok
    cases hok

/-- Witness for C8 at a concrete construction: ImageUploadWriteResponse
with off explicitly set to the falsy value 0. -/
theorem c8_omission_invariant_witness :
    (Message.mk ⟨.WRITE_RSP, .V1, 0, 6, 1, 0, 1⟩ .V1 0
        [11, 0, 0, 6, 0, 1, 0, 1, 161, 99, 111, 102, 102, 0]
        [(asciiBytes "off", Cbor.uint 0)]).smpData.drop 8 =
      cborEncode (.map (CborMap.ofList (modelDump
        imageUploadWriteResponseSpec.fields
        [(asciiBytes "off", Cbor.uint 0)]))) ∧
    (lookupKwarg [(asciiBytes "off", Cbor.uint 0)] (asciiBytes "off") = none →
      lookupKwarg (modelDump imageUploadWriteResponseSpec.fields
        [(asciiBytes "off", Cbor.uint 0)]) (asciiBytes "off") = none) ∧
    (∀ v : Cbor, v ≠ Cbor.null →
      lookupKwarg [(asciiBytes "off", Cbor.uint 0)] (asciiBytes "off") = some v →
      lookupKwarg (modelDump imageUploadWriteResponseSpec.fields
        [(asciiBytes "off", Cbor.uint 0)]) (asciiBytes "off") = some v) :=
  c8_omission_invariant imageUploadWriteResponseSpec
    [(asciiBytes "off", Cbor.uint 0)] 0
    (Message.mk ⟨.WRITE_RSP, .V1, 0, 6, 1, 0, 1⟩ .V1 0
      [11, 0, 0, 6, 0, 1, 0, 1, 161, 99, 111, 102, 102, 0]
      [(asciiBytes "off", Cbor.uint 0)])
    (asciiBytes "off") rfl

/-- The base64 alphabet mapping is inverted by the character table. -/
theorem charToSextet_sextetToChar : ∀ n < 64,
    charToSextet (sextetToChar n) = some n := by
  decide

/-- No six-bit value encodes to the padding character. -/
theorem sextetToChar_ne_61 (n : Nat) : sextetToChar n ≠ 61 := by
  unfold sextetToChar
  split_ifs <;> omega

/-- Decoding inverts encoding on byte lists. -/
theorem b64decode_b64encode (l : List Nat) (h : ∀ b ∈ l, b < 256) :
    b64decode (b64encode l) = some l := by
  induction l using b64encode.induct with
  | case1 a b c rest ih =>
    have ha : a < 256 := h a (by simp)
    have hb : b < 256 := h b (by simp)
    have hc : c < 256 := h c (by simp)
    have ih' := ih (fun x hx => h x (by simp [hx]))
    have e1 : a / 4 * 4 + (a % 4 * 16 + b / 16) / 16 = a := by omega
    have e2 : (a % 4 * 16 + b / 16) % 16 * 16 + (b % 16 * 4 + c / 64) / 4 = b := by
      omega
    have e3 : (b % 16 * 4 + c / 64) % 4 * 64 + c % 64 = c := by omega
    simp only [b64encode, b64decode]
    rw [charToSextet_sextetToChar (a / 4) (by omega),
      charToSextet_sextetToChar (a % 4 * 16 + b / 16) (by omega)]
    dsimp only
    rw [if_neg (sextetToChar_ne_61 _),
      charToSextet_sextetToChar (b % 16 * 4 + c / 64) (by omega)]
    dsimp only
    rw [if_neg (sextetToChar_ne_61 _),
      charToSextet_sextetToChar (c % 64) (by omega)]
    dsimp only
    rw [ih']
    simp only [Option.map_some']
    rw [e1, e2, e3]
  | case2 a b =>
    have ha : a < 256 := h a (by simp)
    have hb : b < 256 := h b (by simp)
    have e1 : a / 4 * 4 + (a % 4 * 16 + b / 16) / 16 = a := by omega
    have e2 : (a % 4 * 16 + b / 16) % 16 * 16 + (b % 16 * 4) / 4 = b := by omega
    simp only [b64encode, b64decode]
    rw [charToSextet_sextetToChar (a / 4) (by omega),
      charToSextet_sextetToChar (a % 4 * 16 + b / 16) (by omega)]
    dsimp only
    rw [if_neg (sextetToChar_ne_61 _),
      charToSextet_sextetToChar (b % 16 * 4) (by omega)]
    dsimp only
    simp only [if_pos rfl, e1, e2, and_self, if_true]
  | case3 a =>
    have ha : a < 256 := h a (by simp)
    have e1 : a / 4 * 4 + a % 4 * 16 / 16 = a := by omega
    simp only [b64encode, b64decode]
    rw [charToSextet_sextetToChar (a / 4) (by omega),
      charToSextet_sextetToChar (a % 4 * 16) (by omega)]
    dsimp only
    simp only [if_pos rfl, e1, and_self, if_true]
  | case4 => rfl

/-- Taking or dropping base64 characters in multiples of four corresponds
to taking or dropping input bytes in multiples of three. -/
theorem b64encode_take_drop (m : Nat) : ∀ l : List Nat,
    (b64encode l).take (4 * m) = b64encode (l.take (3 * m)) ∧
    (b64encode l).drop (4 * m) = b64encode (l.drop (3 * m)) := by
  induction m with
  | zero => intro l; simp [b64encode]
  | succ m ih =>
    intro l
    match l with
    | [] => simp [b64encode]
    | [a] =>
      constructor
      · rw [List.take_of_length_le (by simp [b64encode]; try omega),
          List.take_of_length_le (by simp; try omega)]
      · rw [List.drop_eq_nil_of_le (by simp [b64encode]; try omega),
          List.drop_eq_nil_of_le (by simp; try omega)]
        rfl
    | [a, b] =>
      constructor
      · rw [List.take_of_length_le (by simp [b64encode]; try omega),
          List.take_of_length_le (by simp; try omega)]
      · rw [List.drop_eq_nil_of_le (by simp [b64encode]; try omega),
          List.drop_eq_nil_of_le (by simp; try omega)]
        rfl
    | a :: b :: c :: rest =>
      have h4 : 4 * (m + 1) = 4 * m + 1 + 1 + 1 + 1 := by ring
      have h3 : 3 * (m + 1) = 3 * m + 1 + 1 + 1 := by ring
      constructor
      · rw [h4, h3]
        simp only [b64encode, List.take_succ_cons]
        rw [(ih rest).1]
      · rw [h4, h3]
        simp only [b64encode, List.drop_succ_cons]
        exact (ih rest).2

/-- The length of a base64 encoding. -/
theorem b64encode_length : ∀ l : List Nat,
    (b64encode l).length = 4 * ((l.length + 2) / 3) := by
  intro l
  induction l using b64encode.induct with
  | case1 a b c rest ih =>
    simp only [b64encode, List.length_cons, ih]
    omega
  | case2 a b => simp [b64encode]
  | case3 a => simp [b64encode]
  | case4 => rfl

/-- Concatenating the chunks restores the list. -/
theorem chunksOf4_flatten (mPred : Nat) (l : List Nat) :
    (chunksOf4 mPred l).flatten = l := by
  by_cases h : l = []
  · subst h; rw [chunksOf4]; rfl
  · rw [chunksOf4, dif_neg h]
    simp only [List.flatten_cons]
    rw [chunksOf4_flatten mPred (l.drop (4 * mPred + 4))]
    exact List.take_append_drop _ l
termination_by l.length
decreasing_by
  simp only [List.length_drop]
  cases l with
  | nil => exact absurd rfl h
  | cons x xs => simp; omega

/-- The i-th chunk is the i-th slice of the list. -/
theorem chunksOf4_get (mPred : Nat) (l : List Nat) : ∀ i,
    i < (chunksOf4 mPred l).length →
    (chunksOf4 mPred l).get? i =
      some ((l.drop ((4 * mPred + 4) * i)).take (4 * mPred + 4)) := by
  intro i
  induction i generalizing l with
  | zero =>
    intro hi
    by_cases h : l = []
    · subst h; rw [chunksOf4] at hi; simp at hi
    · rw [chunksOf4, dif_neg h]
      simp
  | succ i ih =>
    intro hi
    by_cases h : l = []
    · subst h; rw [chunksOf4] at hi; simp at hi
    · rw [chunksOf4, dif_neg h] at hi ⊢
      simp only [List.length_cons, Nat.succ_lt_succ_iff] at hi
      simp only [List.get?_cons_succ]
      rw [ih _ hi, List.drop_drop]
      congr 2
      ring_nf

/-- One CRC shift step stays within 16 bits. -/
theorem crc16Bit_lt (crc : Nat) : crc16Bit crc < 65536 := by
  unfold crc16Bit
  split_ifs <;> exact Nat.lt_succ_of_le Nat.and_le_right

/-- Folding a byte into the CRC stays within 16 bits. -/
theorem crc16Byte_lt (crc b : Nat) : crc16Byte crc b < 65536 :=
  crc16Bit_lt _

/-- The CRC-16 of any byte list fits in 16 bits. -/
theorem crc16_lt (bs : List Nat) : crc16 bs < 65536 := by
  cases bs with
  | nil => decide
  | cons x xs =>
    have haux : ∀ (l : List Nat) (init : Nat), init < 65536 →
        l.foldl crc16Byte init < 65536 := by
      intro l
      induction l with
      | nil => intro init h; exact h
      | cons y ys ih => intro init _; exact ih _ (crc16Byte_lt _ _)
    exact haux xs _ (crc16Byte_lt 0 x)

/-- For a request whose frame length field fits, the envelope built by
encode is exactly the envelope the spec describes. -/
theorem encodeEnvelopeB64_eq (request : List Nat)
    (hlen : request.length ≤ 65533) :
    encodeEnvelopeB64 request = some (b64encode (c7Envelope request)) := by
  unfold encodeEnvelopeB64 pack16
  rw [if_pos (crc16_lt request), if_pos (by omega : request.length + 2 < 65536)]
  rfl

/-- Every byte of the envelope is a byte when the request is made of
bytes. -/
theorem c7Envelope_bytes (request : List Nat)
    (hreq : ∀ b ∈ request, b < 256) (hlen : request.length ≤ 65533) :
    ∀ b ∈ c7Envelope request, b < 256 := by
  intro b hb
  have hcrc := crc16_lt request
  have h2 : request.length + 2 < 65536 := by omega
  unfold c7Envelope at hb
  rcases List.mem_append.mp hb with h | h
  · rcases List.mem_append.mp h with h | h
    · simp only [List.mem_cons, List.not_mem_nil, or_false] at h
      rcases h with h | h <;> subst h <;> omega
    · exact hreq b h
  · simp only [List.mem_cons, List.not_mem_nil, or_false] at h
    rcases h with h | h <;> subst h <;> omega

/-- The length of the spec envelope. -/
theorem c7Envelope_length (request : List Nat) :
    (c7Envelope request).length = request.length + 4 := by
  simp only [c7Envelope, List.length_append, List.length_cons,
    List.length_nil]
  omega

/-- Python slicing with a nonnegative index is List.take. -/
theorem pyTake_natCast (k : Nat) (l : List Nat) :
    pyTake (k : Int) l = l.take k := by
  unfold pyTake
  rw [if_pos (Int.natCast_nonneg k)]
  simp

/-- Python slicing with a nonnegative index is List.drop. -/
theorem pyDrop_natCast (k : Nat) (l : List Nat) :
    pyDrop (k : Int) l = l.drop k := by
  unfold pyDrop
  rw [if_pos (Int.natCast_nonneg k)]
  simp

/-- With a positive multiple of four as packet size and enough fuel, the
encode loop emits exactly the continue packets of the chunked base64
text. -/
theorem encodeSteps_eq_chunks (mPred : Nat) : ∀ (fuel : Nat) (rem : List Nat),
    rem.length ≤ fuel →
    encodeSteps fuel rem ((4 * mPred + 4 : Nat) : Int) =
      some ((chunksOf4 mPred rem).map
        (fun c => continueDelimiter ++ c ++ [10])) := by
  intro fuel
  induction fuel with
  | zero =>
    intro rem h
    have : rem = [] := List.eq_nil_of_length_eq_zero (by omega)
    subst this
    rw [chunksOf4]
    rfl
  | succ fuel ih =>
    intro rem h
    by_cases hrem : rem = []
    · subst hrem
      rw [chunksOf4]
      rfl
    · rw [encodeSteps, if_neg (by simp [hrem])]
      rw [chunksOf4, dif_neg hrem]
      rw [pyDrop_natCast, pyTake_natCast]
      have hlen' : (rem.drop (4 * mPred + 4)).length ≤ fuel := by
        have : rem.length ≥ 1 := by
          cases rem with
          | nil => exact absurd rfl hrem
          | cons x xs => simp
        simp only [List.length_drop]
        omega
      rw [ih _ hlen']
      rfl

/-- Feeding the continue packets of the base64 chunks of the still missing
tail to the decode loop accumulates exactly that tail and hands the result
to the CRC check. -/
theorem decodeWhile_chunks (mPred : Nat) (tail frame : List Nat)
    (target : Nat) (htail : ∀ b ∈ tail, b < 256)
    (hlen : frame.length + tail.length = target) :
    decodeWhile ((chunksOf4 mPred (b64encode tail)).map
        (fun c => continueDelimiter ++ c ++ [10])) frame target =
      decodeFinish (frame ++ tail) := by
  by_cases htl : tail = []
  · subst htl
    have hch : chunksOf4 mPred ([] : List Nat) = [] := by
      rw [chunksOf4]
      rfl
    rw [show b64encode [] = [] from rfl, hch, List.map_nil]
    rw [decodeWhile.eq_def]
    rw [if_neg (by simp at hlen; omega)]
    rw [List.append_nil]
  · have hpos : 1 ≤ tail.length := by
      cases tail with
      | nil => exact absurd rfl htl
      | cons x xs => simp
    have hb64 : b64encode tail ≠ [] := by
      have := b64encode_length tail
      intro hnil
      rw [hnil] at this
      simp at this
      omega
    rw [chunksOf4, dif_neg hb64, List.map_cons]
    have h44 : 4 * mPred + 4 = 4 * (mPred + 1) := by ring
    have h33 : 3 * mPred + 3 = 3 * (mPred + 1) := by ring
    have htake : (b64encode tail).take (4 * mPred + 4) =
        b64encode (tail.take (3 * mPred + 3)) := by
      rw [h44, h33]
      exact (b64encode_take_drop (mPred + 1) tail).1
    have hdrop : (b64encode tail).drop (4 * mPred + 4) =
        b64encode (tail.drop (3 * mPred + 3)) := by
      rw [h44, h33]
      exact (b64encode_take_drop (mPred + 1) tail).2
    rw [decodeWhile, if_pos (by omega)]
    split_ifs with hdelim
    · have hpayload : packetPayload (continueDelimiter ++
          (b64encode tail).take (4 * mPred + 4) ++ [10]) =
          (b64encode tail).take (4 * mPred + 4) := List.dropLast_concat
      rw [hpayload, htake,
        b64decode_b64encode _ (fun x hx => htail x (List.mem_of_mem_take hx))]
      dsimp only
      rw [hdrop]
      rw [decodeWhile_chunks mPred (tail.drop (3 * mPred + 3))
        (frame ++ tail.take (3 * mPred + 3)) target
        (fun x hx => htail x (List.mem_of_mem_drop hx))
        (by simp only [List.length_append, List.length_take, List.length_drop]
            omega)]
      rw [List.append_assoc, List.take_append_drop]
    · exact absurd rfl hdelim
termination_by tail.length
decreasing_by
  simp only [List.length_drop]
  omega

/-- Floor division of a cast natural by four. -/
theorem natCast_fdiv_four (n : Nat) :
    ((n : Int)).fdiv 4 = ((n / 4 : Nat) : Int) := by
  cases n with
  | zero => rfl
  | succ m => rfl

/-- A line length of at least 8 makes the packet size a positive multiple
of four. -/
theorem packetSize_eq (ll : Int) (hll : 8 ≤ ll) :
    ∃ mPred : Nat, packetSize ll = ((4 * mPred + 4 : Nat) : Int) := by
  obtain ⟨n, hn, hn4⟩ : ∃ n : Nat, ll - 4 = (n : Int) ∧ 4 ≤ n :=
    ⟨(ll - 4).toNat, by omega, by omega⟩
  refine ⟨n / 4 - 1, ?_⟩
  unfold packetSize
  rw [hn, natCast_fdiv_four]
  have h1 : 1 ≤ n / 4 := by omega
  push_cast
  omega

/-- A line length below 8 makes the packet size nonpositive. -/
theorem packetSize_nonpos (ll : Int) (hll : ll < 8) : packetSize ll ≤ 0 := by
  unfold packetSize
  by_cases hsgn : 0 ≤ ll - 4
  · obtain ⟨n, hn, hn4⟩ : ∃ n : Nat, ll - 4 = (n : Int) ∧ n < 4 :=
      ⟨(ll - 4).toNat, by omega, by omega⟩
    rw [hn, natCast_fdiv_four]
    have : n / 4 = 0 := by omega
    rw [this]
    rfl
  · obtain ⟨m, hm⟩ := Int.eq_negSucc_of_lt_zero (by omega : ll - 4 < 0)
    rw [hm, show (Int.negSucc m).fdiv 4 = Int.negSucc (m / 4) from rfl]
    rw [Int.negSucc_eq]
    have : (0 : Int) ≤ (m / 4 : Nat) := by positivity
    omega

/-- Python slicing from a nonpositive index keeps a nonempty list
nonempty. -/
theorem pyDrop_nonpos_ne_nil (ps : Int) (l : List Nat) (hps : ps ≤ 0)
    (hl : l ≠ []) : pyDrop ps l ≠ [] := by
  have hlen : 1 ≤ l.length := by
    cases l with
    | nil => exact absurd rfl hl
    | cons x xs => simp
  unfold pyDrop
  by_cases h0 : 0 ≤ ps
  · rw [if_pos h0]
    have : ps = 0 := by omega
    subst this
    simpa using hl
  · rw [if_neg h0]
    intro hcon
    rw [List.drop_eq_nil_iff] at hcon
    omega

/-- With a nonpositive packet size the encode loop never terminates: no
fuel makes it finish once bytes remain. -/
theorem encodeSteps_none_of_nonpos (ps : Int) (hps : ps ≤ 0) :
    ∀ (fuel : Nat) (rem : List Nat), rem ≠ [] →
      encodeSteps fuel rem ps = none := by
  intro fuel
  induction fuel with
  | zero =>
    intro rem hrem
    rw [encodeSteps, if_neg (by simp [hrem])]
  | succ fuel ih =>
    intro rem hrem
    rw [encodeSteps, if_neg (by simp [hrem])]
    rw [ih _ (pyDrop_nonpos_ne_nil ps rem hps hrem)]
    rfl

/-- The base64 text of the envelope has at least 8 characters. -/
theorem b64env_length (request : List Nat) :
    (b64encode (c7Envelope request)).length =
      4 * ((request.length + 6) / 3) ∧
    8 ≤ (b64encode (c7Envelope request)).length := by
  have h := b64encode_length (c7Envelope request)
  rw [c7Envelope_length] at h
  constructor
  · omega
  · omega

/-- The packets of a terminating encode run: the start packet with the
first packet_size base64 characters, then the continue packets of the
remaining chunks. -/
theorem encode_eq (request : List Nat) (ll : Int) (mPred : Nat)
    (hlen : request.length ≤ 65533)
    (hps : packetSize ll = ((4 * mPred + 4 : Nat) : Int)) :
    encode (2 * request.length + 8) request ll =
      some ((startDelimiter ++
          (b64encode (c7Envelope request)).take (4 * mPred + 4) ++ [10]) ::
        (chunksOf4 mPred
            ((b64encode (c7Envelope request)).drop (4 * mPred + 4))).map
          (fun c => continueDelimiter ++ c ++ [10])) := by
  unfold encode
  rw [encodeEnvelopeB64_eq request hlen]
  simp only [Bind.bind, Option.bind]
  rw [hps, pyDrop_natCast, pyTake_natCast]
  rw [encodeSteps_eq_chunks mPred _ _ (by
    have := (b64env_length request).1
    simp only [List.length_drop]
    omega)]

/-- Feeding the packets of a terminating encode run to the decoder
reassembles exactly the original request. -/
theorem decodeRun_encode (request : List Nat) (mPred : Nat)
    (hreq : ∀ b ∈ request, b < 256) (hlen : request.length ≤ 65533) :
    decodeRun ((startDelimiter ++
        (b64encode (c7Envelope request)).take (4 * mPred + 4) ++ [10]) ::
      (chunksOf4 mPred
          ((b64encode (c7Envelope request)).drop (4 * mPred + 4))).map
        (fun c => continueDelimiter ++ c ++ [10])) = .ok request := by
  have hEbytes := c7Envelope_bytes request hreq hlen
  have h2 : request.length + 2 < 65536 := by omega
  have hcrc := crc16_lt request
  have h44 : 4 * mPred + 4 = 4 * (mPred + 1) := by ring
  have h33 : 3 * mPred + 3 = 3 * (mPred + 1) := by ring
  have htake : (b64encode (c7Envelope request)).take (4 * mPred + 4) =
      b64encode ((c7Envelope request).take (3 * mPred + 3)) := by
    rw [h44, h33]
    exact (b64encode_take_drop (mPred + 1) _).1
  have hdrop : (b64encode (c7Envelope request)).drop (4 * mPred + 4) =
      b64encode ((c7Envelope request).drop (3 * mPred + 3)) := by
    rw [h44, h33]
    exact (b64encode_take_drop (mPred + 1) _).2
  have hE : c7Envelope request = (request.length + 2) / 256 ::
      (request.length + 2) % 256 ::
      (request ++ [crc16 request / 256, crc16 request % 256]) := rfl
  have hrcBytes : ∀ b ∈ request ++ [crc16 request / 256, crc16 request % 256],
      b < 256 := by
    intro b hb
    rcases List.mem_append.mp hb with h | h
    · exact hreq b h
    · simp only [List.mem_cons, List.not_mem_nil, or_false] at h
      rcases h with h | h <;> subst h <;> omega
  have h311 : 3 * mPred + 3 = 3 * mPred + 1 + 1 + 1 := by ring
  rw [decodeRun]
  split_ifs with hdelim
  · have hpayload : packetPayload (startDelimiter ++
        (b64encode (c7Envelope request)).take (4 * mPred + 4) ++ [10]) =
        (b64encode (c7Envelope request)).take (4 * mPred + 4) :=
      List.dropLast_concat
    rw [hpayload, htake,
      b64decode_b64encode _ (fun x hx => hEbytes x (List.mem_of_mem_take hx))]
    rw [show (c7Envelope request).take (3 * mPred + 3) =
        (request.length + 2) / 256 :: (request.length + 2) % 256 ::
          (request ++ [crc16 request / 256, crc16 request % 256]).take
            (3 * mPred + 1) from by
      rw [hE, h311]
      simp only [List.take_succ_cons]]
    dsimp only
    rw [show (request.length + 2) / 256 * 256 + (request.length + 2) % 256 =
      request.length + 2 from by omega]
    rw [hdrop]
    rw [show (c7Envelope request).drop (3 * mPred + 3) =
        (request ++ [crc16 request / 256, crc16 request % 256]).drop
          (3 * mPred + 1) from by
      rw [hE, h311]
      simp only [List.drop_succ_cons]]
    rw [decodeWhile_chunks mPred _ _ _
      (fun x hx => hrcBytes x (List.mem_of_mem_drop hx))
      (by simp only [List.length_take, List.length_drop, List.length_append,
            List.length_cons, List.length_nil]
          omega)]
    rw [List.take_append_drop]
    unfold decodeFinish
    rw [show (request ++ [crc16 request / 256, crc16 request % 256]).length -
        2 = request.length from by simp]
    rw [List.drop_left, List.take_left]
    dsimp only
    rw [if_pos (by omega : crc16 request / 256 * 256 + crc16 request % 256 =
      crc16 request)]
  · exact absurd rfl hdelim

/-- Claim C2 (confirmed): for every payload byte string whose frame length
field fits in 16 bits and every MTU in {16, 128, 512, 4096}, the encode
generator terminates and feeding all its packets, in order, into a fresh
decode reassembly returns exactly the original payload. -/
theorem c2_fragmentation_roundtrip (request : List Nat) (lineLength : Int)
    (hreq : ∀ b ∈ request, b < 256) (hlen : request.length ≤ 65533)
    (hmtu : lineLength ∈ ([16, 128, 512, 4096] : List Int)) :
    ∃ (fuel : Nat) (packets : List (List Nat)),
      encode fuel request lineLength = some packets ∧
      decodeRun packets = .ok request := by
  have hll8 : 8 ≤ lineLength := by
    simp only [List.mem_cons, List.not_mem_nil, or_false] at hmtu
    rcases hmtu with h | h | h | h <;> subst h <;> omega
  obtain ⟨mPred, hps⟩ := packetSize_eq lineLength hll8
  exact ⟨2 * request.length + 8, _,
    encode_eq request lineLength mPred hlen hps,
    decodeRun_encode request mPred hreq hlen⟩

/-- Witness for C2 at a concrete payload and MTU. -/
theorem c2_fragmentation_roundtrip_witness :
    ∃ (fuel : Nat) (packets : List (List Nat)),
      encode fuel [1, 2, 3] 16 = some packets ∧
      decodeRun packets = .ok [1, 2, 3] :=
  c2_fragmentation_roundtrip [1, 2, 3] 16 (by decide) (by decide) (by decide)

/-- Counterexample to claim C7 as stated: at mtu 4 the packet size is 0,
the remaining base64 text never empties, and the generator never
terminates - no fuel makes encode yield a finite packet list - so there is
no finite set of emitted packets whose base64 payloads concatenate to the
envelope. -/
theorem c7_counterexample :
    ¬ ∃ (fuel : Nat) (packets : List (List Nat)),
        encode fuel [] 4 = some packets := by
  rintro ⟨fuel, packets, h⟩
  unfold encode at h
  rw [encodeEnvelopeB64_eq [] (by decide)] at h
  simp only [Bind.bind, Option.bind] at h
  rw [show packetSize 4 = 0 from rfl] at h
  rw [encodeSteps_none_of_nonpos 0 le_rfl fuel _ (by decide)] at h
  cases h

/-- Claim C7 (corrected: the structure holds for every mtu of at least 8;
for smaller mtus the generator never terminates, see the counterexample):
encode base64-encodes the envelope - the 2-byte big-endian length field
equal to len(frame_bytes) + 2, the frame bytes, and the 2-byte big-endian
CRC-16/XMODEM - and splits the base64 text into chunks of
packet_size = floor((mtu - 4) / 4) * 4 bytes, the first chunk between the
start delimiter 06 09 and a line feed, every later chunk between the
continue delimiter 04 14 and a line feed, and concatenating the base64
payloads of all packets and decoding reproduces the envelope exactly. -/
theorem c7_packet_structure (request : List Nat) (mtu : Int)
    (hreq : ∀ b ∈ request, b < 256) (hlen : request.length ≤ 65533)
    (hmtu : 8 ≤ mtu) :
    ∃ (mPred : Nat) (packets : List (List Nat)),
      packetSize mtu = ((4 * mPred + 4 : Nat) : Int) ∧
      encode (2 * request.length + 8) request mtu = some packets ∧
      packets.head? = some (startDelimiter ++
        (b64encode (c7Envelope request)).take (4 * mPred + 4) ++ [10]) ∧
      (∀ i, 0 < i → i < packets.length →
        packets.get? i = some (continueDelimiter ++
          ((b64encode (c7Envelope request)).drop ((4 * mPred + 4) * i)).take
            (4 * mPred + 4) ++ [10])) ∧
      b64decode ((packets.map packetPayload).flatten) =
        some (c7Envelope request) := by
  obtain ⟨mPred, hps⟩ := packetSize_eq mtu hmtu
  refine ⟨mPred, _, hps, encode_eq request mtu mPred hlen hps, rfl, ?_, ?_⟩
  · intro i hi0 hilen
    obtain ⟨j, rfl⟩ : ∃ j, i = j + 1 := ⟨i - 1, by omega⟩
    rw [List.get?_cons_succ, List.get?_map]
    have hjlen : j < (chunksOf4 mPred
        ((b64encode (c7Envelope request)).drop (4 * mPred + 4))).length := by
      simp only [List.length_cons, List.length_map] at hilen
      omega
    rw [chunksOf4_get mPred _ j hjlen]
    simp only [Option.map_some']
    rw [List.drop_drop]
    congr 3
    ring_nf
  · simp only [List.map_cons, List.map_map]
    rw [show packetPayload (startDelimiter ++
        (b64encode (c7Envelope request)).take (4 * mPred + 4) ++ [10]) =
        (b64encode (c7Envelope request)).take (4 * mPred + 4) from
      List.dropLast_concat]
    rw [show (packetPayload ∘ fun c => continueDelimiter ++ c ++ [10]) =
        id from funext fun c => List.dropLast_concat]
    rw [List.map_id, List.flatten_cons, chunksOf4_flatten,
      List.take_append_drop]
    exact b64decode_b64encode _ (c7Envelope_bytes request hreq hlen)

/-- Witness for C7 at a concrete request and mtu. -/
theorem c7_packet_structure_witness :
    ∃ (mPred : Nat) (packets : List (List Nat)),
      packetSize 8 = ((4 * mPred + 4 : Nat) : Int) ∧
      encode (2 * [1, 2].length + 8) [1, 2] 8 = some packets ∧
      packets.head? = some (startDelimiter ++
        (b64encode (c7Envelope [1, 2])).take (4 * mPred + 4) ++ [10]) ∧
      (∀ i, 0 < i → i < packets.length →
        packets.get? i = some (continueDelimiter ++
          ((b64encode (c7Envelope [1, 2])).drop ((4 * mPred + 4) * i)).take
            (4 * mPred + 4) ++ [10])) ∧
      b64decode ((packets.map packetPayload).flatten) =
        some (c7Envelope [1, 2]) :=
  c7_packet_structure [1, 2] 8 (by decide) (by decide) (by decide)

/-- Counterexample to claim C10 as stated: at line_length 3 the remaining
base64 text does shrink - the envelope of the empty request encodes to 8
base64 characters, and after the first packet the remaining text has only
4 - contradicting the parenthetical that the remaining text is always at
least 8 bytes and never shrinks (the generator still never terminates). -/
theorem c10_counterexample :
    ((encodeEnvelopeB64 []).getD []).length = 8 ∧
      (pyDrop (packetSize 3) ((encodeEnvelopeB64 []).getD [])).length = 4 := by
  decide

/-- Claim C10 (corrected: the iff holds as claimed, and for line_length
below 8 the chunk size is nonpositive and the remaining base64 text never
becomes empty, though for line_length below 4 it can shrink once before
staying nonempty forever): the encode generator yields a finite packet
sequence exactly when line_length is at least 8. -/
theorem c10_encode_termination (request : List Nat) (ll : Int)
    (hlen : request.length ≤ 65533) :
    ((∃ (fuel : Nat) (packets : List (List Nat)),
        encode fuel request ll = some packets) ↔ 8 ≤ ll) ∧
    (ll < 8 → packetSize ll ≤ 0) := by
  constructor
  · constructor
    · rintro ⟨fuel, packets, h⟩
      by_contra hlt
      push_neg at hlt
      have hps := packetSize_nonpos ll hlt
      unfold encode at h
      rw [encodeEnvelopeB64_eq request hlen] at h
      simp only [Bind.bind, Option.bind] at h
      have hb64ne : b64encode (c7Envelope request) ≠ [] := by
        have h8 := (b64env_length request).2
        intro hnil
        rw [hnil] at h8
        simp at h8
      have hne := pyDrop_nonpos_ne_nil (packetSize ll) _ hps hb64ne
      rw [encodeSteps_none_of_nonpos _ hps fuel _ hne] at h
      simp at h
    · intro hll8
      obtain ⟨mPred, hps⟩ := packetSize_eq ll hll8
      exact ⟨2 * request.length + 8, _, encode_eq request ll mPred hlen hps⟩
  · exact packetSize_nonpos ll

/-- Witness for C10 at the boundary line length. -/
theorem c10_encode_termination_witness :
    ((∃ (fuel : Nat) (packets : List (List Nat)),
        encode fuel [] 8 = some packets) ↔ 8 ≤ (8 : Int)) ∧
    ((8 : Int) < 8 → packetSize 8 ≤ 0) :=
  c10_encode_termination [] 8 (by decide)

end Smp
